import Mathlib

/-!
Shallow embedding of the pool/loan data-aggregation layer of the
llamalend-interface repository (src/queries/useLoans.tsx and the pool
aggregator in src/unnamed/part_001), together with theorems settling the
frozen claims about it.

Modelling conventions:
* JavaScript numeric values (`Number(...)`, ethers/BigNumber values) are
  modelled as rationals `ℚ` (exact arithmetic; IEEE-754 rounding and the
  2^53 integer bound are not modelled).  Raw ethers BigNumber contract
  reads are modelled as `ℕ`; the `Number(...)` conversion applied to them
  by the source is then the identity.
* Network effects are modelled by passing the responses of the indexer,
  the chain-configuration resolver and the contract reads as explicit
  environment functions; the aggregator bodies are then pure functions of
  those environments.  Each aggregator also returns a log of the indexer
  requests it issued, so that claims about "which query shape is used"
  and "no network call" can be stated.
* `Date.now()` is modelled by explicit time parameters: `blockTimestamp`
  stands for the seconds value `Number((Date.now() / 1e3).toFixed(0))`
  and `nowMs` for the milliseconds value used by the sort comparator and
  the liquidation filter.
* External library functions (`getAddress` from ethers, the pure helpers
  `getMaxNftsToBorrow` from the repo's utils) are parameters of the
  embedding: the claims are proved for every choice of them.
* JavaScript truthiness on optional strings (`s ? ... : ...`) is modelled
  by `truthyStr`: an absent value and the empty string are falsy.
* `Array.prototype.sort` with a comparator `cmp` is modelled as a stable
  sort (`sortJs` below, a stable insertion sort) under the boolean
  relation `cmp a b ≤ 0`.  ECMAScript mandates a stable sort, and for the
  consistent comparators used here every stable sort produces the same
  output, so the model is canonical up to the comparator.
-/

namespace LlamaLend

/-- Stable insertion step: place `a` before the first element `b` of the
(already sorted) list with `le a b`. -/
def insertLe {α : Type} (le : α → α → Bool) (a : α) : List α → List α
  | [] => [a]
  | b :: l => if le a b then a :: b :: l else b :: insertLe le a l

/-- Stable sort modelling `Array.prototype.sort` with a consistent
comparator: every element is inserted, right to left, before the first
later-listed element it compares `≤` to, so original order is kept among
comparator-equal elements. -/
def sortJs {α : Type} (le : α → α → Bool) : List α → List α
  | [] => []
  | a :: l => insertLe le a (sortJs le l)



/-- Modelled from the spec: the constant `SECONDS_IN_A_DAY` lives in
`~/lib/constants`, which is not among the provided sources; the spec's
formula `lateFees = (now - deadline) * borrowed / secondsInADay` together
with its "one day = 86400 seconds" example fixes it to 86400. -/
def SECONDS_IN_A_DAY : ℚ := 86400

/-- Modelled from the spec: the constant `SECONDS_IN_A_YEAR` lives in
`~/lib/constants`, which is not among the provided sources; the spec
describes it as "seconds-in-a-year", i.e. 365 · 86400. -/
def SECONDS_IN_A_YEAR : ℕ := 31536000

/-- Structural model of `String.prototype.toLowerCase` (the addresses
involved are ASCII): lowercase every character.  This agrees with
`String.toLower`, which is avoided only because its implementation does
not reduce inside the kernel. -/
def jsToLower (s : String) : String := String.mk (s.data.map Char.toLower)

/-- JavaScript truthiness of an optional string argument: `undefined` and
the empty string are falsy, every other string is truthy. -/
def truthyStr : Option String → Bool
  | none => false
  | some s => s ≠ ""

/-- Pool summary embedded in a loan response (`loan.pool` in
`IGraphLoanResponse`, src/queries/useLoans.tsx). -/
structure LoanPool where
  name : String
  owner : String
  address : String
deriving Repr, DecidableEq, Inhabited

/-- One record of the indexer's `loans` response
(`IGraphLoanResponse`, src/queries/useLoans.tsx).  The numeric-valued
string fields (`interest`, `borrowed`, `startTime`, `deadline`) are
modelled directly by their numeric values, since every use site converts
them with `Number(...)`. -/
structure IGraphLoanResponse where
  id : String
  loanId : String
  nftId : String
  interest : ℚ
  borrowed : ℚ
  startTime : ℚ
  deadline : ℚ
  tokenUri : String
  owner : String
  pool : LoanPool
deriving Repr, DecidableEq

/-- View-model loan record produced by `getLoans`
(the object literal in its `.map`, src/queries/useLoans.tsx). -/
structure ILoan where
  id : String
  nftId : String
  interest : ℚ
  startTime : ℚ
  borrowed : ℚ
  toPay : ℚ
  deadline : ℚ
  tokenUri : String
  owner : String
  pool : LoanPool
deriving Repr, DecidableEq, Inhabited

/-- Embedding of `infoToRepayLoan` (src/queries/useLoans.tsx).
`blockTimestamp` is the seconds timestamp the source computes from
`Date.now()`. -/
def infoToRepayLoan (blockTimestamp : ℚ) (loan : IGraphLoanResponse) : ℚ :=
  let deadline := loan.deadline
  let interest := ((blockTimestamp - loan.startTime) * loan.interest * loan.borrowed) / 1e18
  let lateFees := if blockTimestamp > deadline then
      ((blockTimestamp - deadline) * loan.borrowed) / SECONDS_IN_A_DAY
    else 0
  loan.borrowed + interest + lateFees

/-- The two indexer query shapes `getLoans` can issue:
`userLoansQuery` (filter `originalOwner == owner == userAddress`, address
lowercased) and `loansByPoolQuery` (filter `pool == poolAddress`, address
lowercased).  The stored string is the lowercased address interpolated
into the query text. -/
inductive LoanQuery where
  | userLoans (userAddressLower : String)
  | loansByPool (poolAddressLower : String)
deriving Repr, DecidableEq

/-- The per-loan mapping step inside `getLoans`
(the arrow function of its `.map`, src/queries/useLoans.tsx). -/
def toILoan (getAddress : String → String) (blockTimestamp : ℚ) (isTestnet : Bool)
    (loan : IGraphLoanResponse) : ILoan where
  id := loan.id
  nftId := loan.nftId
  interest := loan.interest
  startTime := loan.startTime
  borrowed := loan.borrowed
  toPay := infoToRepayLoan blockTimestamp loan
  deadline := loan.deadline * 1000
  tokenUri := if isTestnet then "" else loan.tokenUri
  owner := loan.owner
  pool := { loan.pool with address := getAddress loan.pool.address }

/-- The sort comparator of `getLoans`, as a boolean "comes not after"
relation: `Date.now() - b.deadline - (Date.now() - a.deadline) ≤ 0`
(src/queries/useLoans.tsx line 124). -/
def loanSortLe (nowMs : ℚ) (a b : ILoan) : Bool :=
  nowMs - b.deadline - (nowMs - a.deadline) ≤ 0

/-- The `.sort(...)` call of `getLoans`: a stable sort under the deadline
delta comparator. -/
def sortLoansJs (nowMs : ℚ) (xs : List ILoan) : List ILoan :=
  sortJs (loanSortLe nowMs) xs

/-- Embedding of `getLoans` (src/queries/useLoans.tsx).  `indexer` is the
subgraph client: it maps an issued query to its `loans` response.  The
result carries, besides the view models, the indexer query that was
issued (`none` when the degenerate early return fired). -/
def getLoans (getAddress : String → String) (blockTimestamp nowMs : ℚ)
    (indexer : LoanQuery → List IGraphLoanResponse) (endpoint : String)
    (userAddress poolAddress : Option String) (isTestnet : Bool) :
    Except String (List ILoan × Option LoanQuery) :=
  if (if truthyStr poolAddress then false else !truthyStr userAddress) then
    .ok ([], none)
  else if endpoint = "" then
    .error "Error: Invalid arguments"
  else
    let q := if truthyStr poolAddress then
        LoanQuery.loansByPool (jsToLower (poolAddress.getD ""))
      else
        LoanQuery.userLoans (jsToLower (userAddress.getD ""))
    let loans := indexer q
    .ok (sortLoansJs nowMs (loans.map (toILoan getAddress blockTimestamp isTestnet)), some q)

/-- Embedding of the fetch closure of the `useGetLoans` hook
(src/queries/useLoans.tsx lines 131-149): it resolves `chainConfig`
fields and calls `getLoans` with `endpoint`, `userAddress` and
`isTestnet` only — the hook's `poolAddress` parameter is used in the
query cache key but never forwarded to `getLoans`, so the fetch receives
`poolAddress = undefined` (`none`).  `subgraphUrl` and `isTestnet` stand
for the fields of `chainConfig(chainId)`. -/
def useGetLoansFetch (getAddress : String → String) (blockTimestamp nowMs : ℚ)
    (indexer : LoanQuery → List IGraphLoanResponse)
    (subgraphUrl : String) (isTestnet : Bool)
    (userAddress poolAddress : Option String) :
    Except String (List ILoan × Option LoanQuery) :=
  getLoans getAddress blockTimestamp nowMs indexer subgraphUrl userAddress none isTestnet

/-- Embedding of `getLoansToLiquidate` (src/queries/useLoans.tsx).
`liqIndexer` maps the lowercased liquidator address of the `liquidators`
indexer query to the pool addresses of its response.  `Promise.all` over
the per-pool `getLoans` calls is the monadic `mapM` in `Except` (any
failure aborts the whole batch); the `forEach`/push accumulation is the
flatten-and-filter of the per-pool results by `deadline - Date.now() ≤ 0`. -/
def getLoansToLiquidate (getAddress : String → String) (blockTimestamp nowMs : ℚ)
    (indexer : LoanQuery → List IGraphLoanResponse)
    (liqIndexer : String → List String) (endpoint : String)
    (liquidatorAddress : Option String) (isTestnet : Bool) :
    Except String (List ILoan) :=
  if !truthyStr liquidatorAddress then
    .ok []
  else if endpoint = "" then
    .error "Error: Invalid arguments"
  else do
    let pools := liqIndexer (jsToLower (liquidatorAddress.getD ""))
    let loans ← pools.mapM (fun poolAddress =>
      (getLoans getAddress blockTimestamp nowMs indexer endpoint none (some poolAddress) isTestnet).map
        Prod.fst)
    return (loans.flatten.filter (fun l => l.deadline - nowMs ≤ 0))

/-! Pool aggregator (src/unnamed/part_001). -/

/-- One record of the indexer's `pools` response (`IPoolsQueryResponse`,
src/unnamed/part_001).  `maxLoanLength`, `minimumInterest` and
`maxVariableInterestPerEthPerSecond` are numeric-valued strings that the
source feeds to `Number(...)` / `BigNumber`, so they are modelled by
their numeric values; `ltv` is only ever passed through opaquely to the
external helpers, so it stays a string. -/
structure GraphPool where
  name : String
  symbol : String
  maxLoanLength : ℚ
  minimumInterest : ℚ
  maxVariableInterestPerEthPerSecond : ℚ
  ltv : String
  nftContract : String
  owner : String
  address : String
deriving Repr, DecidableEq

/-- The three indexer query shapes `getAllpools` can issue; the stored
string is the lowercased address interpolated into the query text. -/
inductive PoolsQuery where
  | allPools
  | byCollection (collectionLower : String)
  | byOwner (ownerLower : String)
deriving Repr, DecidableEq

/-- One oracle quote as returned by `fetchOracle` (external collaborator,
only its `price` field is consumed). -/
structure OracleQuote where
  price : ℚ
deriving Repr, DecidableEq

/-- The contract/provider reads consumed by `getPoolAddlInfo`: the
resolved values of its `Promise.all` batch.  `currentAnnualInterest` is
the contract read whose argument (built by the external
`getTotalReceivedArg`) is abstracted into the environment. -/
structure AddlReads where
  collectionName : String
  poolBalance : ℕ
  totalBorrowed : ℕ
  maxInstantBorrow : ℕ
  currentAnnualInterest : ℕ
  oracle : String
deriving Repr, DecidableEq

/-- Result record of `getPoolAddlInfo` (src/unnamed/part_001).
`poolBalance`, `totalBorrowed` and `totalDeposited` are decimal integer
strings in the source (`BigNumber(...).toFixed(0, 1)` on integers is
exact), modelled as `ℕ`; `pricePerNft` and `maxNftsToBorrow` come from
the external helper and are modelled by their numeric values. -/
structure PoolAddlInfo where
  collectionName : String
  poolBalance : ℕ
  totalBorrowed : ℕ
  totalDeposited : ℕ
  pricePerNft : ℚ
  maxNftsToBorrow : ℚ
  currentAnnualInterest : ℕ
  oracle : String
  oraclePrice : Option ℚ
deriving Repr, DecidableEq

/-- Embedding of the pure tail of `getPoolAddlInfo`
(src/unnamed/part_001 lines 48-85): given the oracle decision, the
external helper `getMaxNftsToBorrow` and the resolved reads, build the
enrichment record.  `totalDeposited` is
`new BigNumber(poolBalance).plus(totalBorrowed).toFixed(0, 1)`, exact
natural addition on integer inputs. -/
def getPoolAddlInfo
    (getMaxNftsToBorrow : ℕ → Option ℚ → String → ℚ × ℚ)
    (quote : Option OracleQuote) (ltv : String) (r : AddlReads) : PoolAddlInfo :=
  let priceAndCurrentBorrowables :=
    getMaxNftsToBorrow r.maxInstantBorrow (quote.map OracleQuote.price) ltv
  { collectionName := r.collectionName
    poolBalance := r.poolBalance
    totalBorrowed := r.totalBorrowed
    totalDeposited := r.poolBalance + r.totalBorrowed
    pricePerNft := priceAndCurrentBorrowables.1
    maxNftsToBorrow := priceAndCurrentBorrowables.2
    currentAnnualInterest := r.currentAnnualInterest
    oracle := r.oracle
    oraclePrice := quote.map OracleQuote.price }

/-- The contract reads and liquidators-query response consumed by
`getAdminPoolInfo`: the resolved values of its `Promise.all` batch,
together with the two addresses it receives as arguments. -/
structure AdminReads where
  nftContractAddress : String
  poolAddress : String
  maxPrice : ℕ
  maxInstantBorrow : ℕ
  dailyBorrows : ℕ
  maxDailyBorrowsLimit : ℕ
  maxLoanLength : ℕ
  oracle : String
  minimumInterest : ℕ
  maxVariableInterestPerEthPerSecond : ℕ
  liquidators : List String
deriving Repr, DecidableEq

/-- Result record of `getAdminPoolInfo` (src/unnamed/part_001).
`minimumInterest` and `maximumInterest` are the digit strings the source
builds with `toFixed`; the other numeric fields are the `Number(...)` of
the raw reads, identity under the `ℕ` model. -/
structure AdminPoolInfo where
  key : String
  maxPrice : ℕ
  maxInstantBorrow : ℕ
  dailyBorrows : ℕ
  maxDailyBorrows : ℕ
  maxLoanLength : ℕ
  oracle : String
  minimumInterest : String
  maximumInterest : String
  liquidators : List String
deriving Repr, DecidableEq

/-- Annualization of a raw per-second rate:
`new BigNumber(Number(raw)).div(1e16).times(SECONDS_IN_A_YEAR).toFixed(0, 1)`,
i.e. the floor of `raw · SECONDS_IN_A_YEAR / 10^16` (BigNumber's default
20-decimal division precision is modelled as exact division, which agrees
on the floor here). -/
def annualizeRate (raw : ℕ) : ℕ :=
  raw * SECONDS_IN_A_YEAR / 10 ^ 16

/-- Embedding of the pure tail of `getAdminPoolInfo`
(src/unnamed/part_001 lines 88-152).  The `key` field is the source's
string concatenation, in its order: nft contract address, pool address,
maxPrice, maxInstantBorrow, dailyBorrows, maxDailyBorrowsLimit,
maxLoanLength twice, minInt, maxVariableInt, joined liquidator
addresses — note the source concatenates `maxLoanLength` twice and never
concatenates `oracle`. -/
def getAdminPoolInfo (getAddress : String → String) (r : AdminReads) : AdminPoolInfo :=
  let minInt := annualizeRate r.minimumInterest
  let maxVariableInt := annualizeRate r.maxVariableInterestPerEthPerSecond
  let liqAddresses := r.liquidators.map getAddress
  { key :=
      r.nftContractAddress ++ r.poolAddress ++ toString r.maxPrice ++
        toString r.maxInstantBorrow ++ toString r.dailyBorrows ++
        toString r.maxDailyBorrowsLimit ++ toString r.maxLoanLength ++
        toString r.maxLoanLength ++ toString minInt ++ toString maxVariableInt ++
        String.join liqAddresses
    maxPrice := r.maxPrice
    maxInstantBorrow := r.maxInstantBorrow
    dailyBorrows := r.dailyBorrows
    maxDailyBorrows := r.maxDailyBorrowsLimit
    maxLoanLength := r.maxLoanLength
    oracle := r.oracle
    minimumInterest := toString minInt
    maximumInterest := toString (maxVariableInt + minInt)
    liquidators := liqAddresses }

/-- View-model pool record produced by `getAllpools` (the object literal
in its `.map`, src/unnamed/part_001).  String-or-number union fields
follow the same numeric modelling as elsewhere; `oraclePrice` collapses
the `?? ''` default to `none`; `adminPoolInfo ?? {}` is `Option`, with
`none` for the empty-object default. -/
structure IBorrowPool where
  name : String
  symbol : String
  address : String
  owner : String
  nftContract : String
  maxLoanLength : ℚ
  ltv : String
  collectionName : String
  poolBalance : ℕ
  totalBorrowed : ℕ
  totalDeposited : ℕ
  maxVariableInterestPerEthPerSecond : ℚ
  currentAnnualInterest : ℕ
  pricePerNft : ℚ
  maxNftsToBorrow : ℚ
  oracle : String
  oraclePrice : Option ℚ
  adminPoolInfo : Option AdminPoolInfo
deriving Repr, DecidableEq, Inhabited

/-- The chain-configuration fields `getAllpools` consumes from
`chainConfig(chainId)` (resolver lives in `~/lib/constants`, outside the
provided sources, so it is an environment parameter).  `chainProvider`
is an object in the source; only its truthiness is consumed, hence
`Bool`. -/
structure PoolChainConfig where
  chainProvider : Bool
  quoteApi : String
  subgraphUrl : String
  isTestnet : Bool
deriving Repr, DecidableEq

/-- JavaScript truthiness of the optional numeric `chainId` argument
(`chainId?: number | null`): absent, `null`, `0` and `NaN` are falsy;
the model covers absent/null via `none` and `0` explicitly. -/
def chainIdTruthy : Option Int → Bool
  | none => false
  | some c => c ≠ 0

/-- Environment of `getAllpools`: chain-configuration resolver, indexer
`pools` responses per query shape, per-pool-address contract/oracle
reads.  `addl` returning `none` models an absent live-enrichment entry,
the path on which the merge's `poolAddlInfo?.[index] ?? ...` defaults
fire. -/
structure PoolsEnv where
  chainCfg : Int → PoolChainConfig
  pools : PoolsQuery → List GraphPool
  addl : String → Option AddlReads
  oracleQuote : String → Option OracleQuote
  admin : String → AdminReads

/-- Arguments of `getAllpools` (`IGetAllPoolsArgs`,
src/unnamed/part_001). -/
structure IGetAllPoolsArgs where
  chainId : Option Int := none
  collectionAddress : Option String := none
  ownerAddress : Option String := none
  skipOracle : Bool := false
deriving Repr, DecidableEq

/-- Requests issued by `getAllpools` against the network: the one pools
indexer query, and per pool one live-enrichment batch and one
admin-enrichment batch (each marker summarizes the contract reads,
oracle fetch and liquidators query of that batch). -/
inductive PoolNetReq where
  | poolsQuery (q : PoolsQuery)
  | addlInfoFetch (poolAddress : String)
  | adminInfoFetch (poolAddress : String)
deriving Repr, DecidableEq

/-- Positional merge of the pools list with the two enrichment lists,
embedding the `pools.map((pool, index) => ...)` of `getAllpools`
(src/unnamed/part_001 lines 249-271) with its `?.[index] ?? ...`
defaults: a missing live enrichment defaults the balances to the `'0'`
string (here `0`), the name/oracle to `''`, the price to `''` (`none`),
and a missing admin enrichment defaults to `{}` (`none`). -/
def mergePools (getAddress : String → String) :
    List GraphPool → List (Option PoolAddlInfo) → List AdminPoolInfo → List IBorrowPool
  | [], _, _ => []
  | pool :: pools, addl, admin =>
    { name := pool.name
      symbol := pool.symbol
      address := getAddress pool.address
      owner := getAddress pool.owner
      nftContract := getAddress pool.nftContract
      maxLoanLength := pool.maxLoanLength
      ltv := pool.ltv
      collectionName := ((addl.head?.join).map PoolAddlInfo.collectionName).getD ""
      poolBalance := ((addl.head?.join).map PoolAddlInfo.poolBalance).getD 0
      totalBorrowed := ((addl.head?.join).map PoolAddlInfo.totalBorrowed).getD 0
      totalDeposited := ((addl.head?.join).map PoolAddlInfo.totalDeposited).getD 0
      maxVariableInterestPerEthPerSecond :=
        pool.maxVariableInterestPerEthPerSecond + pool.minimumInterest
      currentAnnualInterest :=
        ((addl.head?.join).map PoolAddlInfo.currentAnnualInterest).getD 0
      pricePerNft := ((addl.head?.join).map PoolAddlInfo.pricePerNft).getD 0
      maxNftsToBorrow := ((addl.head?.join).map PoolAddlInfo.maxNftsToBorrow).getD 0
      oracle := ((addl.head?.join).map PoolAddlInfo.oracle).getD ""
      oraclePrice := (addl.head?.join).bind PoolAddlInfo.oraclePrice
      adminPoolInfo := admin.head? } ::
      mergePools getAddress pools addl.tail admin.tail

/-- The sort comparator of `getAllpools`, as a boolean "comes not after"
relation: `Number(b.maxNftsToBorrow) - Number(a.maxNftsToBorrow) ≤ 0`
(src/unnamed/part_001 line 271). -/
def poolSortLe (a b : IBorrowPool) : Bool :=
  b.maxNftsToBorrow - a.maxNftsToBorrow ≤ 0

/-- Embedding of `getAllpools` (src/unnamed/part_001).  Returns the
result (or the raised error) together with the log of issued network
requests. -/
def getAllpools (getAddress : String → String)
    (getMaxNftsToBorrow : ℕ → Option ℚ → String → ℚ × ℚ)
    (env : PoolsEnv) (args : IGetAllPoolsArgs) :
    Except String (List IBorrowPool) × List PoolNetReq :=
  if !chainIdTruthy args.chainId then
    (.ok [], [])
  else
    let cfg := env.chainCfg (args.chainId.getD 0)
    if !cfg.chainProvider || cfg.quoteApi = "" || cfg.subgraphUrl = "" then
      (.error "Invalid arguments", [])
    else
      let q := if truthyStr args.ownerAddress then
          PoolsQuery.byOwner (jsToLower (args.ownerAddress.getD ""))
        else if truthyStr args.collectionAddress then
          PoolsQuery.byCollection (jsToLower (args.collectionAddress.getD ""))
        else
          PoolsQuery.allPools
      let pools := env.pools q
      let poolAddlInfo := pools.map (fun pool =>
        (env.addl pool.address).map (fun r =>
          getPoolAddlInfo getMaxNftsToBorrow
            (if args.skipOracle then none else env.oracleQuote pool.nftContract)
            pool.ltv r))
      let adminPoolInfo := pools.map (fun pool =>
        getAdminPoolInfo getAddress
          { env.admin pool.address with
              nftContractAddress := pool.nftContract, poolAddress := pool.address })
      (.ok (sortJs poolSortLe (mergePools getAddress pools poolAddlInfo adminPoolInfo)),
        PoolNetReq.poolsQuery q ::
          (pools.map (fun pool => PoolNetReq.addlInfoFetch pool.address) ++
            pools.map (fun pool => PoolNetReq.adminInfoFetch pool.address)))

/-- Discriminator for the pools-indexer-query entries of the request
log. -/
def isPoolsQueryReq : PoolNetReq → Bool
  | .poolsQuery _ => true
  | _ => false

/-! Concrete fixtures used by the witness and counterexample theorems. -/

/-- A fully-present chain configuration. -/
def cfgOk : PoolChainConfig where
  chainProvider := true
  quoteApi := "api"
  subgraphUrl := "url"
  isTestnet := false

/-- A concrete indexer pool record. -/
def gpA : GraphPool where
  name := "Pool A"
  symbol := "PA"
  maxLoanLength := 60
  minimumInterest := 2
  maxVariableInterestPerEthPerSecond := 3
  ltv := "500000000000000000"
  nftContract := "0xnft"
  owner := "0xowner"
  address := "0xpool"

/-- Concrete live-enrichment reads with balance 7 and borrowed 5. -/
def addlReadsA : AddlReads where
  collectionName := "Coll"
  poolBalance := 7
  totalBorrowed := 5
  maxInstantBorrow := 9
  currentAnnualInterest := 4
  oracle := "0xoracle"

/-- Concrete admin-enrichment reads. -/
def adminReadsA : AdminReads where
  nftContractAddress := ""
  poolAddress := ""
  maxPrice := 10
  maxInstantBorrow := 11
  dailyBorrows := 12
  maxDailyBorrowsLimit := 13
  maxLoanLength := 14
  oracle := "0xoracle"
  minimumInterest := 0
  maxVariableInterestPerEthPerSecond := 0
  liquidators := ["0xliq"]

/-- Single-pool environment with full enrichment. -/
def envA : PoolsEnv where
  chainCfg := fun _ => cfgOk
  pools := fun _ => [gpA]
  addl := fun _ => some addlReadsA
  oracleQuote := fun _ => some { price := 2 }
  admin := fun _ => adminReadsA

/-- Trivial external price/capacity helper. -/
def gmZero : ℕ → Option ℚ → String → ℚ × ℚ := fun _ _ _ => (0, 0)

/-- External price/capacity helper that reports `maxInstantBorrow` as the
number of borrowable NFTs, so `maxNftsToBorrow` can be driven per pool
through the environment. -/
def gmInstant : ℕ → Option ℚ → String → ℚ × ℚ := fun maxInstantBorrow _ _ =>
  (0, (maxInstantBorrow : ℚ))

/-- Three-pool environment whose live enrichments drive
`maxNftsToBorrow` to 3, 10 and 1 (in indexer order) under `gmInstant`. -/
def envB : PoolsEnv where
  chainCfg := fun _ => cfgOk
  pools := fun _ =>
    [{ gpA with address := "0xp1" }, { gpA with address := "0xp2" },
      { gpA with address := "0xp3" }]
  addl := fun a =>
    if a = "0xp1" then some { addlReadsA with maxInstantBorrow := 3 }
    else if a = "0xp2" then some { addlReadsA with maxInstantBorrow := 10 }
    else some { addlReadsA with maxInstantBorrow := 1 }
  oracleQuote := fun _ => some { price := 2 }
  admin := fun _ => adminReadsA

/-- Admin reads for the cache-key counterexample, oracle `0xOracleA`. -/
def c1readsA : AdminReads where
  nftContractAddress := "0xn"
  poolAddress := "0xp"
  maxPrice := 1
  maxInstantBorrow := 2
  dailyBorrows := 3
  maxDailyBorrowsLimit := 4
  maxLoanLength := 5
  oracle := "0xOracleA"
  minimumInterest := 0
  maxVariableInterestPerEthPerSecond := 0
  liquidators := []

/-- The same admin reads with a different oracle address. -/
def c1readsB : AdminReads := { c1readsA with oracle := "0xOracleB" }

/-- A stand-in canonicalizer with `csum s ≠ s` on every address, as the
EIP-55 checksummer is on all-lowercase addresses: it tags its argument,
so a field equals `csum raw` exactly when the code applied the
canonicalizer to it. -/
def csum (s : String) : String := "CHK:" ++ s

/-- A concrete indexer loan record, lowercase addresses. -/
def gLoanA : IGraphLoanResponse where
  id := "loan-1"
  loanId := "1"
  nftId := "77"
  interest := 1000000000000
  borrowed := 100
  startTime := 1000
  deadline := 2000
  tokenUri := "uri"
  owner := "0xab"
  pool := { name := "Pool A", owner := "0xcd", address := "0xef" }

/-- Indexer returning `gLoanA` for every loans query. -/
def indexerA : LoanQuery → List IGraphLoanResponse := fun _ => [gLoanA]

/-- Indexer for the liquidation fixture: pool `0xpool` holds one loan
past its deadline (100 s) and one before it (300 s). -/
def indexerLiq : LoanQuery → List IGraphLoanResponse := fun q =>
  match q with
  | .loansByPool "0xpool" =>
      [{ gLoanA with id := "past", deadline := 100 },
        { gLoanA with id := "future", deadline := 300 }]
  | _ => []

/-- Liquidators-query environment: liquidator `0xliq` is authorized for
pool `0xpool`. -/
def liqIndexerA : String → List String := fun a =>
  if a = "0xliq" then ["0xpool"] else []

/-- Loan view model with only the deadline relevant, for the sorting
example. -/
def loanOfDeadline (d : ℚ) : ILoan where
  id := ""
  nftId := ""
  interest := 0
  startTime := 0
  borrowed := 0
  toPay := 0
  deadline := d
  tokenUri := ""
  owner := ""
  pool := { name := "", owner := "", address := "" }

attribute [local semireducible] Rat.add Rat.sub Rat.mul Rat.inv Rat.ofScientific

theorem headI_mem_self {α : Type} [Inhabited α] (l : List α) (h : l ≠ []) :
    l.headI ∈ l := by
  cases l with
  | nil => exact absurd rfl h
  | cons a l => exact List.mem_cons_self a l

theorem mem_insertLe {α : Type} (le : α → α → Bool) (a x : α) (l : List α) :
    x ∈ insertLe le a l ↔ x = a ∨ x ∈ l := by
  induction l with
  | nil => simp [insertLe]
  | cons b l ih =>
    rw [insertLe]
    by_cases h : le a b
    · rw [if_pos h]
      simp
    · rw [if_neg h]
      simp only [List.mem_cons, ih]
      tauto

theorem mem_sortJs {α : Type} (le : α → α → Bool) (x : α) (l : List α) :
    x ∈ sortJs le l ↔ x ∈ l := by
  induction l with
  | nil => simp [sortJs]
  | cons a l ih => simp [sortJs, mem_insertLe, ih]

theorem pairwise_insertLe {α : Type} (le : α → α → Bool)
    (trans : ∀ a b c, le a b = true → le b c = true → le a c = true)
    (total : ∀ a b, le a b = true ∨ le b a = true)
    (a : α) (l : List α) (hl : l.Pairwise (fun x y => le x y = true)) :
    (insertLe le a l).Pairwise (fun x y => le x y = true) := by
  induction l with
  | nil => simp [insertLe]
  | cons b l ih =>
    rcases List.pairwise_cons.mp hl with ⟨hb, hl'⟩
    by_cases h : le a b
    · rw [insertLe, if_pos h]
      refine List.pairwise_cons.mpr ⟨?_, hl⟩
      intro y hy
      rcases List.mem_cons.mp hy with rfl | hy'
      · exact h
      · exact trans a b y h (hb y hy')
    · rw [insertLe, if_neg h]
      refine List.pairwise_cons.mpr ⟨?_, ih hl'⟩
      intro y hy
      rcases (mem_insertLe le a y l).mp hy with rfl | hy'
      · rcases total b y with hby | hyb
        · exact hby
        · exact absurd hyb (by simpa using h)
      · exact hb y hy'

theorem pairwise_sortJs {α : Type} (le : α → α → Bool)
    (trans : ∀ a b c, le a b = true → le b c = true → le a c = true)
    (total : ∀ a b, le a b = true ∨ le b a = true)
    (l : List α) : (sortJs le l).Pairwise (fun x y => le x y = true) := by
  induction l with
  | nil => simp [sortJs]
  | cons a l ih => exact pairwise_insertLe le trans total a (sortJs le l) ih

/-- C8: with `chainId` absent, `getAllpools` returns the empty list,
issues no network request and raises no error.  The degenerate-case
check precedes chain-configuration resolution, so this holds for every
environment, in particular for ones whose resolved configuration is
missing, hence no configuration error can be raised. -/
theorem getAllpools_absent_chainId (getAddress : String → String)
    (getMaxNfts : ℕ → Option ℚ → String → ℚ × ℚ) (env : PoolsEnv)
    (collectionAddress ownerAddress : Option String) (skipOracle : Bool) :
    getAllpools getAddress getMaxNfts env
        { chainId := none, collectionAddress := collectionAddress,
          ownerAddress := ownerAddress, skipOracle := skipOracle } =
      (Except.ok [], []) := rfl

/-- C7: on a call that passes the degenerate-case and configuration
checks, `getAllpools` issues exactly one pools-indexer query, whose
shape is selected by precedence: by-owner if `ownerAddress` is truthy,
otherwise by-collection if `collectionAddress` is truthy, otherwise
unfiltered. -/
theorem getAllpools_query_precedence (getAddress : String → String)
    (getMaxNfts : ℕ → Option ℚ → String → ℚ × ℚ) (env : PoolsEnv)
    (args : IGetAllPoolsArgs)
    (hchain : chainIdTruthy args.chainId = true)
    (hprov : (env.chainCfg (args.chainId.getD 0)).chainProvider = true)
    (hapi : (env.chainCfg (args.chainId.getD 0)).quoteApi ≠ "")
    (hurl : (env.chainCfg (args.chainId.getD 0)).subgraphUrl ≠ "") :
    (getAllpools getAddress getMaxNfts env args).2.filter isPoolsQueryReq =
      [PoolNetReq.poolsQuery
        (if truthyStr args.ownerAddress then
          PoolsQuery.byOwner (jsToLower (args.ownerAddress.getD ""))
        else if truthyStr args.collectionAddress then
          PoolsQuery.byCollection (jsToLower (args.collectionAddress.getD ""))
        else
          PoolsQuery.allPools)] := by
  simp only [getAllpools, hchain, hprov, hapi, hurl, Bool.not_true, Bool.false_or,
    decide_eq_false hapi, decide_eq_false hurl, Bool.or_self, if_false,
    Bool.false_eq_true, List.filter_cons, List.filter_append]
  simp [isPoolsQueryReq, List.filter_map]

/-- Witness for C7: with a valid configuration, both an owner filter and
a collection filter supplied, the single issued query is the by-owner
one with the owner address lowercased. -/
theorem getAllpools_query_precedence_witness :
    (getAllpools id gmZero envA
        { chainId := some 1, collectionAddress := some "0xCol",
          ownerAddress := some "0xOwn", skipOracle := false }).2.filter
        isPoolsQueryReq =
      [PoolNetReq.poolsQuery (PoolsQuery.byOwner "0xown")] := by
  have h := getAllpools_query_precedence id gmZero envA
    { chainId := some 1, collectionAddress := some "0xCol",
      ownerAddress := some "0xOwn", skipOracle := false }
    (by decide) (by decide) (by decide) (by decide)
  rw [h]
  decide

/-- C1 (code bug): the derived cache key of `getAdminPoolInfo` omits the
`oracle` field (the source concatenates `maxLoanLength` twice where the
destructuring order has `oracle`), so two admin snapshots that differ
only in the oracle address produce equal keys but records that are not
field-for-field equal — their `oracle` fields differ. -/
theorem adminPoolInfo_key_misses_oracle :
    (getAdminPoolInfo id c1readsA).key = (getAdminPoolInfo id c1readsB).key ∧
    (getAdminPoolInfo id c1readsA).oracle ≠ (getAdminPoolInfo id c1readsB).oracle ∧
    getAdminPoolInfo id c1readsA ≠ getAdminPoolInfo id c1readsB := by
  refine ⟨rfl, ?_, ?_⟩ <;> decide

/-- Every record produced by the merge step satisfies the deposited-sum
invariant, provided every present live-enrichment entry does; a missing
entry defaults all three fields to zero, which satisfies it as well. -/
theorem mergePools_totalDeposited (getAddress : String → String)
    (pools : List GraphPool) (addl : List (Option PoolAddlInfo))
    (admin : List AdminPoolInfo)
    (haddl : ∀ a : PoolAddlInfo, some a ∈ addl →
      a.totalDeposited = a.poolBalance + a.totalBorrowed) :
    ∀ p ∈ mergePools getAddress pools addl admin,
      p.totalDeposited = p.poolBalance + p.totalBorrowed := by
  induction pools generalizing addl admin with
  | nil => intro p hp; simp [mergePools] at hp
  | cons pool pools ih =>
    intro p hp
    rw [mergePools] at hp
    rcases List.mem_cons.mp hp with rfl | hp2
    · cases hj : addl.head?.join with
      | none => simp [hj]
      | some a =>
        have hmem : some a ∈ addl := by
          apply List.mem_of_mem_head?
          cases ho : addl.head? with
          | none => rw [ho] at hj; simp at hj
          | some o =>
            rw [ho] at hj
            cases o with
            | none => simp at hj
            | some b => simp at hj; simp [ho, hj]
        simp [hj, haddl a hmem]
    · exact ih addl.tail admin.tail
        (fun a ha => haddl a (List.tail_subset addl ha)) p hp2

/-- C4: every pool record returned by `getAllpools` satisfies
`totalDeposited = poolBalance + totalBorrowed` (exact integer addition),
both when its live enrichment is present (the sum is computed by
`getPoolAddlInfo`) and when it is missing (all three fields default to
zero). -/
theorem getAllpools_totalDeposited (getAddress : String → String)
    (getMaxNfts : ℕ → Option ℚ → String → ℚ × ℚ) (env : PoolsEnv)
    (args : IGetAllPoolsArgs) (res : List IBorrowPool)
    (h : (getAllpools getAddress getMaxNfts env args).1 = .ok res) :
    ∀ p ∈ res, p.totalDeposited = p.poolBalance + p.totalBorrowed := by
  unfold getAllpools at h
  by_cases hc : (!chainIdTruthy args.chainId) = true
  · rw [if_pos hc] at h
    simp only [Except.ok.injEq] at h
    subst h
    intro p hp
    simp at hp
  · rw [if_neg hc] at h
    set cfg := env.chainCfg (args.chainId.getD 0) with hcfg
    by_cases hbad :
        (!cfg.chainProvider || cfg.quoteApi = "" || cfg.subgraphUrl = "") = true
    · rw [if_pos hbad] at h
      simp at h
    · rw [if_neg hbad] at h
      simp only [Except.ok.injEq] at h
      subst h
      intro p hp
      have hp2 := (mem_sortJs _ _ _).mp hp
      refine mergePools_totalDeposited _ _ _ _ ?_ p hp2
      intro a ha
      rcases List.mem_map.mp ha with ⟨pool, hpool, hmap⟩
      rcases Option.map_eq_some'.mp hmap with ⟨r, hr, rfl⟩
      rfl

/-- Witness for C4: a concrete single-pool run with balance 7 and
borrowed 5 returns a record whose `totalDeposited` is 12, and the
invariant theorem applies to it. -/
theorem getAllpools_totalDeposited_witness :
    ((getAllpools id gmZero envA { chainId := some 1 }).1.toOption.getD
          []).headI.totalDeposited =
        ((getAllpools id gmZero envA { chainId := some 1 }).1.toOption.getD
          []).headI.poolBalance +
        ((getAllpools id gmZero envA { chainId := some 1 }).1.toOption.getD
          []).headI.totalBorrowed ∧
    (((getAllpools id gmZero envA { chainId := some 1 }).1.toOption.getD
          []).map IBorrowPool.totalDeposited,
      ((getAllpools id gmZero envA { chainId := some 1 }).1.toOption.getD
          []).map IBorrowPool.poolBalance) = ([12], [7]) := by
  constructor
  · exact getAllpools_totalDeposited id gmZero envA { chainId := some 1 } _
      (by rfl) _ (headI_mem_self _ (by decide))
  · decide

/-- C6: every pool list returned by `getAllpools` is sorted descending
by `maxNftsToBorrow`: in every adjacent pair the earlier pool's value is
greater than or equal to the later one's. -/
theorem getAllpools_sorted_desc (getAddress : String → String)
    (getMaxNfts : ℕ → Option ℚ → String → ℚ × ℚ) (env : PoolsEnv)
    (args : IGetAllPoolsArgs) (res : List IBorrowPool)
    (h : (getAllpools getAddress getMaxNfts env args).1 = .ok res) :
    List.Chain' (fun a b => b.maxNftsToBorrow ≤ a.maxNftsToBorrow) res := by
  unfold getAllpools at h
  by_cases hc : (!chainIdTruthy args.chainId) = true
  · rw [if_pos hc] at h
    simp only [Except.ok.injEq] at h
    subst h
    simp
  · rw [if_neg hc] at h
    set cfg := env.chainCfg (args.chainId.getD 0) with hcfg
    by_cases hbad :
        (!cfg.chainProvider || cfg.quoteApi = "" || cfg.subgraphUrl = "") = true
    · rw [if_pos hbad] at h
      simp at h
    · rw [if_neg hbad] at h
      simp only [Except.ok.injEq] at h
      subst h
      refine List.Pairwise.chain' ((pairwise_sortJs poolSortLe ?_ ?_ _).imp ?_)
      · intro a b c hab hbc
        simp only [poolSortLe, decide_eq_true_eq, sub_nonpos] at hab hbc ⊢
        exact le_trans hbc hab
      · intro a b
        rcases le_total b.maxNftsToBorrow a.maxNftsToBorrow with hle | hle <;>
          simp [poolSortLe, sub_nonpos, hle]
      · intro a b hab
        simpa [poolSortLe, sub_nonpos] using hab

/-- Witness for C6: three pools whose `maxNftsToBorrow` values arrive in
indexer order 3, 10, 1 come out ordered 10, 3, 1, and the sortedness
theorem applies to the returned list. -/
theorem getAllpools_sorted_desc_witness :
    List.Chain' (fun a b => b.maxNftsToBorrow ≤ a.maxNftsToBorrow)
        ((getAllpools id gmInstant envB { chainId := some 1 }).1.toOption.getD
          []) ∧
    ((getAllpools id gmInstant envB { chainId := some 1 }).1.toOption.getD
          []).map IBorrowPool.maxNftsToBorrow = [10, 3, 1] := by
  constructor
  · exact getAllpools_sorted_desc id gmInstant envB { chainId := some 1 } _
      (by rfl)
  · decide

/-- C3: sorting with the loan aggregator's deadline-delta comparator
produces, for every list and every evaluation time, exactly the list
sorted ascending by `deadline`; in particular deadlines in arrival order
T+10, T+5, T+20 come out as T+5, T+10, T+20 (here with T = 10000 ms). -/
theorem sortLoansJs_eq_sort_by_deadline :
    (∀ (nowMs : ℚ) (xs : List ILoan),
      sortLoansJs nowMs xs =
        sortJs (fun a b => decide (a.deadline ≤ b.deadline)) xs) ∧
    sortLoansJs 0
        [loanOfDeadline 10010, loanOfDeadline 10005, loanOfDeadline 10020] =
      [loanOfDeadline 10005, loanOfDeadline 10010, loanOfDeadline 10020] := by
  constructor
  · intro nowMs xs
    unfold sortLoansJs
    congr 1
    funext a b
    simp only [loanSortLe]
    rw [decide_eq_decide]
    constructor <;> intro h <;> linarith
  · decide

/-- Closed form of `infoToRepayLoan`: principal plus accrued interest
plus the conditional late fee. -/
theorem infoToRepayLoan_eq (bt : ℚ) (g : IGraphLoanResponse) :
    infoToRepayLoan bt g =
      g.borrowed + (bt - g.startTime) * g.interest * g.borrowed / 1e18
        + (if bt > g.deadline then (bt - g.deadline) * g.borrowed / 86400
          else 0) := rfl

/-- C2: every loan record returned by `getLoans` satisfies
`toPay = borrowed + accruedInterest + lateFees` with
`accruedInterest = (now - startTime) * interestRate * borrowed / 1e18`
and `lateFees = (now - deadline) * borrowed / 86400` only past the
deadline (the record's `deadline` field is in milliseconds, hence the
`/ 1000`); in particular exactly one day past the deadline the late fee
equals `borrowed`, and at or before the deadline it is zero. -/
theorem getLoans_toPay (getAddress : String → String) (blockTimestamp nowMs : ℚ)
    (indexer : LoanQuery → List IGraphLoanResponse) (endpoint : String)
    (userAddress poolAddress : Option String) (isTestnet : Bool)
    (res : List ILoan) (q : Option LoanQuery)
    (h : getLoans getAddress blockTimestamp nowMs indexer endpoint userAddress
      poolAddress isTestnet = .ok (res, q)) :
    ∀ l ∈ res,
      l.toPay = l.borrowed
          + (blockTimestamp - l.startTime) * l.interest * l.borrowed / 1e18
          + (if blockTimestamp > l.deadline / 1000 then
              (blockTimestamp - l.deadline / 1000) * l.borrowed / 86400
            else 0) ∧
      (blockTimestamp = l.deadline / 1000 + 86400 →
        (if blockTimestamp > l.deadline / 1000 then
            (blockTimestamp - l.deadline / 1000) * l.borrowed / 86400
          else 0) = l.borrowed) ∧
      (blockTimestamp ≤ l.deadline / 1000 →
        l.toPay = l.borrowed
          + (blockTimestamp - l.startTime) * l.interest * l.borrowed / 1e18) := by
  intro l hl
  unfold getLoans at h
  by_cases h1 :
      (if truthyStr poolAddress then false else !truthyStr userAddress) = true
  · rw [if_pos h1] at h
    simp only [Except.ok.injEq, Prod.mk.injEq] at h
    rcases h with ⟨hres, -⟩
    rw [← hres] at hl
    simp at hl
  · rw [if_neg h1] at h
    by_cases h2 : endpoint = ""
    · rw [if_pos h2] at h
      simp at h
    · rw [if_neg h2] at h
      simp only [Except.ok.injEq, Prod.mk.injEq] at h
      rcases h with ⟨hres, -⟩
      rw [← hres] at hl
      rcases List.mem_map.mp ((mem_sortJs _ _ _).mp hl) with ⟨g, -, rfl⟩
      have hdl : (toILoan getAddress blockTimestamp isTestnet g).deadline / 1000 =
          g.deadline := by
        show g.deadline * 1000 / 1000 = g.deadline
        field_simp
      refine ⟨?_, ?_, ?_⟩
      · show infoToRepayLoan blockTimestamp g = _
        rw [infoToRepayLoan_eq, hdl]
        rfl
      · intro hbt
        rw [hdl] at hbt ⊢
        rw [if_pos (by rw [hbt]; linarith)]
        show (blockTimestamp - g.deadline) * g.borrowed / 86400 = g.borrowed
        rw [hbt]
        have h86 : g.deadline + 86400 - g.deadline = (86400 : ℚ) := by ring
        rw [h86, mul_comm, mul_div_assoc,
          div_self (by norm_num : (86400 : ℚ) ≠ 0), mul_one]
      · intro hbt
        rw [hdl] at hbt
        show infoToRepayLoan blockTimestamp g = _
        rw [infoToRepayLoan_eq, if_neg (not_lt.mpr hbt), add_zero]
        rfl

/-- Witness for C2: a concrete run evaluated exactly one day past the
deadline (deadline 2000 s, evaluation 88400 s): accrued interest is
8.74 and the late fee equals the borrowed amount 100, so the repayment
is 100 + 8.74 + 100. -/
theorem getLoans_toPay_witness :
    (((getLoans id 88400 0 indexerA "url" (some "0xU") none
              false).toOption.getD ([], none)).1.headI.toPay =
        ((getLoans id 88400 0 indexerA "url" (some "0xU") none
              false).toOption.getD ([], none)).1.headI.borrowed
          + (88400 -
              ((getLoans id 88400 0 indexerA "url" (some "0xU") none
                    false).toOption.getD ([], none)).1.headI.startTime) *
              ((getLoans id 88400 0 indexerA "url" (some "0xU") none
                    false).toOption.getD ([], none)).1.headI.interest *
              ((getLoans id 88400 0 indexerA "url" (some "0xU") none
                    false).toOption.getD ([], none)).1.headI.borrowed / 1e18
          + (if (88400 : ℚ) >
                ((getLoans id 88400 0 indexerA "url" (some "0xU") none
                      false).toOption.getD ([], none)).1.headI.deadline / 1000 then
              (88400 -
                  ((getLoans id 88400 0 indexerA "url" (some "0xU") none
                        false).toOption.getD ([], none)).1.headI.deadline / 1000) *
                ((getLoans id 88400 0 indexerA "url" (some "0xU") none
                      false).toOption.getD ([], none)).1.headI.borrowed / 86400
            else 0)) ∧
    ((getLoans id 88400 0 indexerA "url" (some "0xU") none
          false).toOption.getD ([], none)).1.map ILoan.toPay =
      [100 + 874 / 100 + 100] := by
  constructor
  · exact (getLoans_toPay id 88400 0 indexerA "url" (some "0xU") none false _ _
      (by rfl) _ (headI_mem_self _ (by decide))).1
  · decide

/-- C9: `getLoansToLiquidate` returns the empty list when the liquidator
address is absent, and every loan it returns has
`deadline - now ≤ 0` at evaluation time — no loan with a strictly
future deadline is ever included. -/
theorem getLoansToLiquidate_past_deadline (getAddress : String → String)
    (blockTimestamp nowMs : ℚ) (indexer : LoanQuery → List IGraphLoanResponse)
    (liqIndexer : String → List String) (endpoint : String)
    (liquidatorAddress : Option String) (isTestnet : Bool) :
    (liquidatorAddress = none →
      getLoansToLiquidate getAddress blockTimestamp nowMs indexer liqIndexer
        endpoint liquidatorAddress isTestnet = .ok []) ∧
    ∀ res, getLoansToLiquidate getAddress blockTimestamp nowMs indexer
        liqIndexer endpoint liquidatorAddress isTestnet = .ok res →
      ∀ l ∈ res, l.deadline - nowMs ≤ 0 := by
  constructor
  · rintro rfl
    rfl
  · intro res h l hl
    unfold getLoansToLiquidate at h
    by_cases h1 : (!truthyStr liquidatorAddress) = true
    · rw [if_pos h1] at h
      simp only [Except.ok.injEq] at h
      subst h
      simp at hl
    · rw [if_neg h1] at h
      by_cases h2 : endpoint = ""
      · rw [if_pos h2] at h
        simp at h
      · rw [if_neg h2] at h
        cases hm : mapM
            (fun poolAddress =>
              Except.map Prod.fst (getLoans getAddress blockTimestamp nowMs
                indexer endpoint none (some poolAddress) isTestnet))
            (liqIndexer (jsToLower (liquidatorAddress.getD ""))) with
        | error e =>
          simp only [hm, Bind.bind, Except.bind] at h
          simp at h
        | ok ls =>
          simp only [hm, Bind.bind, Except.bind, pure, Except.pure,
            Except.ok.injEq] at h
          subst h
          exact of_decide_eq_true (List.mem_filter.mp hl).2

/-- Witness for C9: with the liquidator absent the result is empty; with
liquidator `0xLiq` authorized for a pool holding one loan 100 s past and
one 100 s before `now = 200000 ms`, only the past-deadline loan
(deadline 100000 ms) is returned, and its deadline is not in the
future. -/
theorem getLoansToLiquidate_past_deadline_witness :
    (getLoansToLiquidate id 0 200000 indexerLiq liqIndexerA "url" none false =
      .ok []) ∧
    ((getLoansToLiquidate id 0 200000 indexerLiq liqIndexerA "url"
            (some "0xLiq") false).toOption.getD []).map ILoan.deadline =
      [100000] ∧
    ((getLoansToLiquidate id 0 200000 indexerLiq liqIndexerA "url"
            (some "0xLiq") false).toOption.getD []).headI.deadline -
        200000 ≤ 0 := by
  refine ⟨(getLoansToLiquidate_past_deadline id 0 200000 indexerLiq liqIndexerA
      "url" none false).1 rfl, by decide, ?_⟩
  exact (getLoansToLiquidate_past_deadline id 0 200000 indexerLiq liqIndexerA
      "url" (some "0xLiq") false).2 _ (by rfl) _ (headI_mem_self _ (by decide))

/-- C10: the `useGetLoans` fetch never forwards the hook's `poolAddress`
parameter: it always calls `getLoans` with `poolAddress` absent, so the
pool-filtered query shape is never issued through this hook, and when
`userAddress` is also absent (falsy) the fetch returns the empty list
without issuing any query. -/
theorem useGetLoansFetch_drops_poolAddress (getAddress : String → String)
    (blockTimestamp nowMs : ℚ) (indexer : LoanQuery → List IGraphLoanResponse)
    (subgraphUrl : String) (isTestnet : Bool)
    (userAddress poolAddress : Option String) :
    useGetLoansFetch getAddress blockTimestamp nowMs indexer subgraphUrl
        isTestnet userAddress poolAddress =
      getLoans getAddress blockTimestamp nowMs indexer subgraphUrl userAddress
        none isTestnet ∧
    (truthyStr userAddress = false →
      useGetLoansFetch getAddress blockTimestamp nowMs indexer subgraphUrl
        isTestnet userAddress poolAddress = .ok ([], none)) ∧
    ∀ res q, useGetLoansFetch getAddress blockTimestamp nowMs indexer
        subgraphUrl isTestnet userAddress poolAddress = .ok (res, q) →
      ∀ s, q ≠ some (LoanQuery.loansByPool s) := by
  refine ⟨rfl, ?_, ?_⟩
  · intro hu
    unfold useGetLoansFetch getLoans
    rw [if_pos (by rw [hu]; rfl)]
  · intro res q h s
    unfold useGetLoansFetch getLoans at h
    by_cases hu : (!truthyStr userAddress) = true
    · rw [if_pos (by simpa [truthyStr] using hu)] at h
      simp only [Except.ok.injEq, Prod.mk.injEq] at h
      rcases h with ⟨-, hq⟩
      rw [← hq]
      simp
    · rw [if_neg (by simpa [truthyStr] using hu)] at h
      by_cases h2 : subgraphUrl = ""
      · rw [if_pos h2] at h
        simp at h
      · rw [if_neg h2] at h
        simp only [Except.ok.injEq, Prod.mk.injEq] at h
        rcases h with ⟨-, hq⟩
        rw [← hq]
        simp [truthyStr]

/-- Witness for C10: with a pool address supplied to the hook, the fetch
coincides with `getLoans` on an absent pool address, and with the user
address also missing it returns the empty list. -/
theorem useGetLoansFetch_drops_poolAddress_witness :
    useGetLoansFetch id 0 0 indexerA "url" false (some "0xU") (some "0xPool") =
      getLoans id 0 0 indexerA "url" (some "0xU") none false ∧
    useGetLoansFetch id 0 0 indexerA "url" false none (some "0xPool") =
      .ok ([], none) :=
  ⟨(useGetLoansFetch_drops_poolAddress id 0 0 indexerA "url" false (some "0xU")
      (some "0xPool")).1,
    (useGetLoansFetch_drops_poolAddress id 0 0 indexerA "url" false none
      (some "0xPool")).2.1 rfl⟩

/-- C5 (counterexample): the loan view model's top-level `owner` field is
passed through from the indexer verbatim, not canonicalized: in a run
whose canonicalizer is `csum`, the embedded pool address comes out
canonicalized but the owner comes out as the raw lowercase input, which
differs from its canonical form. -/
theorem getLoans_owner_not_checksummed :
    ((getLoans csum 0 0 indexerA "url" (some "0xU") none
            false).toOption.getD ([], none)).1.headI.owner = "0xab" ∧
    ((getLoans csum 0 0 indexerA "url" (some "0xU") none
            false).toOption.getD ([], none)).1.headI.owner ≠ csum "0xab" ∧
    ((getLoans csum 0 0 indexerA "url" (some "0xU") none
            false).toOption.getD ([], none)).1.headI.pool.address =
      csum "0xef" := by
  refine ⟨rfl, ?_, rfl⟩
  decide

/-- Every record produced by the merge step stems from a pool of the
input list, with its three address fields canonicalized and its admin
record, when present, one of the admin-enrichment list. -/
theorem mem_mergePools (getAddress : String → String) (pools : List GraphPool)
    (addl : List (Option PoolAddlInfo)) (admin : List AdminPoolInfo) :
    ∀ p ∈ mergePools getAddress pools addl admin,
      ∃ g ∈ pools, p.address = getAddress g.address ∧
        p.owner = getAddress g.owner ∧
        p.nftContract = getAddress g.nftContract ∧
        (p.adminPoolInfo = none ∨ ∃ ad ∈ admin, p.adminPoolInfo = some ad) := by
  induction pools generalizing addl admin with
  | nil => intro p hp; simp [mergePools] at hp
  | cons pool pools ih =>
    intro p hp
    rw [mergePools] at hp
    rcases List.mem_cons.mp hp with rfl | hp2
    · refine ⟨pool, List.mem_cons_self _ _, rfl, rfl, rfl, ?_⟩
      cases ha : admin.head? with
      | none => exact Or.inl rfl
      | some ad =>
        exact Or.inr ⟨ad, List.mem_of_mem_head? (Option.mem_def.mpr ha), rfl⟩
    · rcases ih addl.tail admin.tail p hp2 with ⟨g, hg, h1, h2, h3, h4⟩
      refine ⟨g, List.mem_cons_of_mem _ hg, h1, h2, h3, ?_⟩
      rcases h4 with h4 | ⟨ad, had, h5⟩
      · exact Or.inl h4
      · exact Or.inr ⟨ad, List.tail_subset _ had, h5⟩

/-- C5 (amended): the pool aggregator canonicalizes the pool address,
owner and nftContract of every returned record and every admin
liquidator address, and the loan aggregator canonicalizes the embedded
pool address; indexer-side filters carry the lowercased address.  The
loan record's top-level `owner` (and embedded pool `owner`), however,
are passed through from the indexer response unnormalized. -/
theorem address_normalization_amended :
    (∀ (getAddress : String → String)
        (getMaxNfts : ℕ → Option ℚ → String → ℚ × ℚ) (env : PoolsEnv)
        (args : IGetAllPoolsArgs) (res : List IBorrowPool),
      (getAllpools getAddress getMaxNfts env args).1 = .ok res →
      ∀ p ∈ res,
        ∃ g ∈ env.pools
            (if truthyStr args.ownerAddress then
              PoolsQuery.byOwner (jsToLower (args.ownerAddress.getD ""))
            else if truthyStr args.collectionAddress then
              PoolsQuery.byCollection (jsToLower (args.collectionAddress.getD ""))
            else
              PoolsQuery.allPools),
          p.address = getAddress g.address ∧
          p.owner = getAddress g.owner ∧
          p.nftContract = getAddress g.nftContract ∧
          ∀ info, p.adminPoolInfo = some info →
            ∃ reads : AdminReads, info = getAdminPoolInfo getAddress reads ∧
              info.liquidators = reads.liquidators.map getAddress) ∧
    (∀ (getAddress : String → String) (blockTimestamp nowMs : ℚ)
        (indexer : LoanQuery → List IGraphLoanResponse) (endpoint : String)
        (userAddress poolAddress : Option String) (isTestnet : Bool)
        (res : List ILoan) (q : Option LoanQuery),
      getLoans getAddress blockTimestamp nowMs indexer endpoint userAddress
          poolAddress isTestnet = .ok (res, q) →
      ∀ l ∈ res,
        ∃ g ∈ indexer
            (if truthyStr poolAddress then
              LoanQuery.loansByPool (jsToLower (poolAddress.getD ""))
            else
              LoanQuery.userLoans (jsToLower (userAddress.getD ""))),
          l.owner = g.owner ∧
          l.pool.address = getAddress g.pool.address ∧
          l.pool.owner = g.pool.owner) ∧
    (∀ (getAddress : String → String) (blockTimestamp nowMs : ℚ)
        (indexer : LoanQuery → List IGraphLoanResponse) (endpoint : String)
        (userAddress poolAddress : Option String) (isTestnet : Bool)
        (res : List ILoan) (qq : LoanQuery),
      getLoans getAddress blockTimestamp nowMs indexer endpoint userAddress
          poolAddress isTestnet = .ok (res, some qq) →
      qq = (if truthyStr poolAddress then
          LoanQuery.loansByPool (jsToLower (poolAddress.getD ""))
        else
          LoanQuery.userLoans (jsToLower (userAddress.getD "")))) := by
  refine ⟨?_, ?_, ?_⟩
  · intro getAddress getMaxNfts env args res h p hp
    unfold getAllpools at h
    by_cases hc : (!chainIdTruthy args.chainId) = true
    · rw [if_pos hc] at h
      simp only [Except.ok.injEq] at h
      subst h
      simp at hp
    · rw [if_neg hc] at h
      set cfg := env.chainCfg (args.chainId.getD 0) with hcfg
      by_cases hbad :
          (!cfg.chainProvider || cfg.quoteApi = "" || cfg.subgraphUrl = "") = true
      · rw [if_pos hbad] at h
        simp at h
      · rw [if_neg hbad] at h
        simp only [Except.ok.injEq] at h
        subst h
        rcases mem_mergePools getAddress _ _ _ p ((mem_sortJs _ _ _).mp hp) with
          ⟨g, hg, h1, h2, h3, h4⟩
        refine ⟨g, hg, h1, h2, h3, ?_⟩
        intro info hinfo
        rcases h4 with h4 | ⟨ad, had, h5⟩
        · rw [h4] at hinfo
          exact absurd hinfo (by simp)
        · rw [h5] at hinfo
          have hai := Option.some.inj hinfo
          rcases List.mem_map.mp had with ⟨pool, -, had2⟩
          exact ⟨_, (had2.trans hai).symm, by rw [(had2.trans hai).symm]; rfl⟩
  · intro getAddress blockTimestamp nowMs indexer endpoint userAddress
      poolAddress isTestnet res q h l hl
    unfold getLoans at h
    by_cases h1 :
        (if truthyStr poolAddress then false else !truthyStr userAddress) = true
    · rw [if_pos h1] at h
      simp only [Except.ok.injEq, Prod.mk.injEq] at h
      rcases h with ⟨hres, -⟩
      rw [← hres] at hl
      simp at hl
    · rw [if_neg h1] at h
      by_cases h2 : endpoint = ""
      · rw [if_pos h2] at h
        simp at h
      · rw [if_neg h2] at h
        simp only [Except.ok.injEq, Prod.mk.injEq] at h
        rcases h with ⟨hres, -⟩
        rw [← hres] at hl
        rcases List.mem_map.mp ((mem_sortJs _ _ _).mp hl) with ⟨g, hg, rfl⟩
        exact ⟨g, hg, rfl, rfl, rfl⟩
  · intro getAddress blockTimestamp nowMs indexer endpoint userAddress
      poolAddress isTestnet res qq h
    unfold getLoans at h
    by_cases h1 :
        (if truthyStr poolAddress then false else !truthyStr userAddress) = true
    · rw [if_pos h1] at h
      simp at h
    · rw [if_neg h1] at h
      by_cases h2 : endpoint = ""
      · rw [if_pos h2] at h
        simp at h
      · rw [if_neg h2] at h
        simp only [Except.ok.injEq, Prod.mk.injEq, Option.some.injEq] at h
        exact h.2.symm

/-- Witness for C5 (amended): in the concrete canonicalized run, the
returned loan stems from the indexer response of the lowercased user
query, with its pool address canonicalized and its owner passed
through. -/
theorem address_normalization_amended_witness :
    ∃ g ∈ indexerA (LoanQuery.userLoans (jsToLower "0xU")),
      ((getLoans csum 0 0 indexerA "url" (some "0xU") none
            false).toOption.getD ([], none)).1.headI.owner = g.owner ∧
      ((getLoans csum 0 0 indexerA "url" (some "0xU") none
            false).toOption.getD ([], none)).1.headI.pool.address =
        csum g.pool.address ∧
      ((getLoans csum 0 0 indexerA "url" (some "0xU") none
            false).toOption.getD ([], none)).1.headI.pool.owner =
        g.pool.owner :=
  (address_normalization_amended.2.1 csum 0 0 indexerA "url" (some "0xU") none
      false _ _ (by rfl)) _ (headI_mem_self _ (by decide))

end LlamaLend
